import Mathlib

/-!
Verification of the pdf-to-podcast pipeline (src/pdf_to_podcast.py).

Python strings are modelled as `List Char`.  Python `str.split`, slicing,
`in` and `strip` are embedded below.  External capabilities (the PDF
extractor, the LLM, the TTS service and the standard-library JSON decoder)
are parameters of the definitions that call them.  `Option` models Python
exceptions: `none` is a raised error propagating to the top of the run.
-/

/-- Python whitespace test used by `str.strip` (the ASCII whitespace
characters; non-ASCII whitespace never occurs in the strings the claims
quantify over). -/
def pyIsSpace (c : Char) : Bool :=
  c = ' ' || c = '\t' || c = '\n' || c = '\r' || c = '\x0b' || c = '\x0c'

/-- Python `s.strip()`: remove leading and trailing whitespace. -/
def pyStrip (l : List Char) : List Char :=
  ((l.dropWhile pyIsSpace).reverse.dropWhile pyIsSpace).reverse

/-- Python `s.split(sep)` for the non-empty separator `a :: sep`:
scan left to right, cutting at each non-overlapping occurrence of the
separator.  The fuel argument only makes the recursion structural (the
input shrinks by at least one character per step, so any fuel at least
the input length gives the scan's result). -/
def splitOnConsF (a : Char) (sep : List Char) : Nat → List Char → List (List Char)
  | _, [] => [[]]
  | 0, l => [l]
  | fuel + 1, c :: rest =>
    if (a :: sep) <+: (c :: rest) then
      [] :: splitOnConsF a sep fuel (rest.drop sep.length)
    else
      match splitOnConsF a sep fuel rest with
      | [] => [[c]]
      | s :: ss => (c :: s) :: ss

/-- The left-to-right separator scan started with sufficient fuel. -/
def splitOnCons (a : Char) (sep l : List Char) : List (List Char) :=
  splitOnConsF a sep l.length l

/-- Python `s.split(sep)`.  Python raises `ValueError` on an empty
separator; every separator used by the program is non-empty, so the
empty case is arbitrary. -/
def pySplit (sep l : List Char) : List (List Char) :=
  match sep with
  | [] => [l]
  | a :: rest => splitOnCons a rest l

/-- Prefix of `l` strictly before the first occurrence of `sep`
(`l` itself when `sep` does not occur). -/
def beforeFirst (sep : List Char) : List Char → List Char
  | [] => []
  | c :: rest => if sep <+: (c :: rest) then [] else c :: beforeFirst sep rest

/-- Suffix of `l` strictly after the first occurrence of `sep`
(`[]` when `sep` does not occur). -/
def afterFirst (sep : List Char) : List Char → List Char
  | [] => []
  | c :: rest =>
    if sep <+: (c :: rest) then (c :: rest).drop sep.length else afterFirst sep rest

/-- The `json`-labeled fence marker of `extract_json`. -/
def fenceJson : List Char := "```json".data

/-- The plain fence marker of `extract_json`. -/
def fence3 : List Char := "```".data

/-- The Parser (`extract_json` in the source): Python `in`-tests followed
by `split`-indexing and `strip`.  `none` models an `IndexError` raised by
the `[1]` subscripts. -/
def extract_json (content : List Char) : Option (List Char) :=
  if fenceJson <:+: content then
    ((pySplit fenceJson content)[1]?).bind fun seg =>
      ((pySplit fence3 seg)[0]?).map pyStrip
  else if fence3 <:+: content then
    ((pySplit fence3 content)[1]?).bind fun seg =>
      ((pySplit fence3 seg)[0]?).map pyStrip
  else
    some content

/-- Modelled from the spec wording of the Response Parser, for comparison
with `extract_json` (refinement check): the content strictly between the
first `json`-labeled fence marker and the next fence marker; else the
content between the first pair of fence markers; else the whole reply
verbatim. -/
def specExtract (content : List Char) : List Char :=
  if fenceJson <:+: content then
    beforeFirst fence3 (afterFirst fenceJson content)
  else if fence3 <:+: content then
    beforeFirst fence3 (afterFirst fence3 content)
  else
    content

/-- An input document (only its path name is observable locally; its
contents are consumed by the external extraction capability). -/
structure PdfFile where
  name : List Char
deriving DecidableEq

/-- The `PDFMetadata` dataclass of the source. -/
structure PDFMetadata where
  filename : List Char
  markdown : List Char
  type : List Char
deriving DecidableEq

/-- The `DialogueEntry` dataclass of the source (fields typed `str` by
their annotations). -/
structure DialogueEntry where
  text : List Char
  speaker : List Char
deriving DecidableEq

/-- The `Conversation` dataclass of the source. -/
structure Conversation where
  title : List Char
  summary : List Char
  lines : List DialogueEntry
deriving DecidableEq

/-- A decoded JSON value as produced by the standard-library JSON decoder.
Numeric payloads are irrelevant to every claim and are modelled as
integers. -/
inductive PyJson where
  | null
  | bool (b : Bool)
  | num (n : Int)
  | str (s : List Char)
  | arr (items : List PyJson)
  | obj (fields : List (List Char × PyJson))

/-- Key lookup in a decoded JSON object. -/
def lookupKV (kvs : List (List Char × PyJson)) (k : List Char) : Option PyJson :=
  match kvs with
  | [] => none
  | (a, v) :: rest => if a = k then some v else lookupKV rest k

/-- Python `data[key]` on a decoded JSON value: `none` models the
`KeyError`/`TypeError` raised when the key is absent or the value is not
an object. -/
def pyGetItem (j : PyJson) (k : List Char) : Option PyJson :=
  match j with
  | PyJson.obj kvs => lookupKV kvs k
  | _ => none

/-- Decoding of one element of `conversation_data["lines"]` into a
`DialogueEntry` (`line["text"]`, `line["speaker"]`; the dataclass fields
are annotated `str`). -/
def decodeLine (j : PyJson) : Option DialogueEntry :=
  match pyGetItem j ("text".data), pyGetItem j ("speaker".data) with
  | some (PyJson.str t), some (PyJson.str s) => some ⟨t, s⟩
  | _, _ => none

/-- Decoding of the `lines` array, in order; any failing element aborts. -/
def decodeLines : List PyJson → Option (List DialogueEntry)
  | [] => some []
  | j :: rest =>
    match decodeLine j with
    | none => none
    | some e =>
      match decodeLines rest with
      | none => none
      | some es => some (e :: es)

/-- Decoding of the parsed JSON value into the `Conversation` model: the
`lines` comprehension runs first, then the `Conversation(...)` call reads
`title` and `summary` (fields annotated `str`). -/
def decodeData (data : PyJson) : Option Conversation :=
  match pyGetItem data ("lines".data) with
  | some (PyJson.arr items) =>
    match decodeLines items with
    | some lines =>
      match pyGetItem data ("title".data) with
      | some (PyJson.str t) =>
        match pyGetItem data ("summary".data) with
        | some (PyJson.str s) => some ⟨t, s, lines⟩
        | _ => none
      | _ => none
    | none => none
  | _ => none

/-- The loop body of `process_pdfs`, carrying the `enumerate` index:
extraction is the composite external capability (extractor call, download,
read-back), so each document's text is `extractText` of the document. -/
def processPdfsAux (extractText : PdfFile → List Char) :
    Nat → List PdfFile → List PDFMetadata
  | _, [] => []
  | i, p :: rest =>
    ⟨p.name, extractText p, if i = 0 then "main".data else "context".data⟩ ::
      processPdfsAux extractText (i + 1) rest

/-- The Ingestor (`process_pdfs` in the source). -/
def process_pdfs (extractText : PdfFile → List Char) (pdfs : List PdfFile) :
    List PDFMetadata :=
  processPdfsAux extractText 0 pdfs

/-- One document's contribution to `all_pdf_text`:
`f"\n\nDocument: {pdf.filename}\n{pdf.markdown[:5000]}\n\n"`. -/
def docSection (pdf : PDFMetadata) : List Char :=
  "\n\nDocument: ".data ++ pdf.filename ++ "\n".data ++
    pdf.markdown.take 5000 ++ "\n\n".data

/-- The `all_pdf_text` accumulation loop of `generate_podcast_content`. -/
def allPdfText (pdf_metadata : List PDFMetadata) : List Char :=
  pdf_metadata.foldl (fun acc pdf => acc ++ docSection pdf) []

/-- The truncation marker appended by `generate_podcast_content`. -/
def truncMarker : List Char := "\n\n[truncated due to length]\n".data

/-- `all_pdf_text` after the 24000-character truncation guard. -/
def truncatedPdfText (pdf_metadata : List PDFMetadata) : List Char :=
  let t := allPdfText pdf_metadata
  if 24000 < t.length then t.take 24000 ++ truncMarker else t

/-- The fixed text before the document content in `summary_prompt`. -/
def summaryHeader : List Char :=
  ("Summarize the main points from these documents. " ++
    "Focus on key facts, figures, and insights:\n\n    ").data

/-- The fixed text after the document content in `summary_prompt`. -/
def summaryFooter : List Char :=
  ("\n\n    Provide a concise summary in 3-5 paragraphs " ++
    "that captures the essential information.").data

/-- The Planner's first prompt (`summary_prompt`). -/
def summaryPrompt (pdf_metadata : List PDFMetadata) : List Char :=
  summaryHeader ++ truncatedPdfText pdf_metadata ++ summaryFooter

/-- The Planner's second prompt (`outline_prompt`). -/
def outlinePrompt (summary : List Char) (host_name guest_name : List Char)
    (duration_minutes : Nat) (podcast_topic : List Char) (monologue : Bool) :
    List Char :=
  "Based on the following summary of documents:\n\n    ".data ++
    summary ++
    "\n\n    Create an outline for a ".data ++
    (if monologue then "monologue".data
     else "podcast conversation between a host and guest".data) ++
    " that discusses these documents.\n    The ".data ++
    (if monologue then "speaker".data else "host".data) ++
    " is named ".data ++ host_name ++
    (if monologue then ".".data
     else " and the guest is named ".data ++ guest_name ++ ".".data) ++
    ".\n    ".data ++
    (if monologue then "The monologue".data else "The conversation".data) ++
    " should last approximately ".data ++ (Nat.repr duration_minutes).data ++
    " minutes.\n    ".data ++
    (if podcast_topic ≠ [] then
      "The podcast should focus on: ".data ++ podcast_topic
     else []) ++
    ("\n\n    Create a detailed outline with 5-10 main points or segments, " ++
      "where each segment includes a topic and key points to discuss.").data

/-- The JSON template shared by both `content_prompt` variants
(monologue version: both speaker slots name the host). -/
def contentFormatBlock (speaker1 speaker2 : List Char) : List Char :=
  ("\x7b\"title\": \"[PODCAST TITLE]\", \"summary\": \"[BRIEF SUMMARY]\", " ++
    "\"lines\": [\n          \x7b\"text\": \"[First line of speech]\", " ++
    "\"speaker\": \"").data ++ speaker1 ++
  ("\"\x7d,\n          \x7b\"text\": \"[Next line of speech]\", " ++
    "\"speaker\": \"").data ++ speaker2 ++
  "\"\x7d,\n          ...\n        ]\x7d".data

/-- The Planner's third prompt (`content_prompt`), monologue variant. -/
def contentPromptMonologue (outline summary : List Char)
    (host_name : List Char) (duration_minutes : Nat) : List Char :=
  "You will create a monologue podcast script for ".data ++ host_name ++
    " based on this outline:\n\n        ".data ++ outline ++
    "\n\n        The monologue should:\n        1. Be approximately ".data ++
    (Nat.repr duration_minutes).data ++
    " minutes in length (about ".data ++
    (Nat.repr (duration_minutes * 150)).data ++
    (" words)\n        2. Feel conversational and engaging\n         " ++
      "3. Reference information from the documents summarized as: ").data ++
    summary ++
    ("\n        4. Have a clear introduction, body, and conclusion\n" ++
      "        5. Use a natural speaking style\n\n        " ++
      "Format the monologue as follows:\n\n        ").data ++
    contentFormatBlock host_name host_name ++
    ("\n\n        Return ONLY the formatted JSON with no additional text " ++
      "or explanation.").data

/-- The Planner's third prompt (`content_prompt`), dialogue variant. -/
def contentPromptDialogue (outline summary : List Char)
    (host_name guest_name : List Char) (duration_minutes : Nat) : List Char :=
  "You will create a podcast dialogue script between ".data ++ host_name ++
    " and ".data ++ guest_name ++
    " based on this outline:\n\n        ".data ++ outline ++
    "\n\n        The conversation should:\n        1. Be approximately ".data ++
    (Nat.repr duration_minutes).data ++
    " minutes in length (about ".data ++
    (Nat.repr (duration_minutes * 150)).data ++
    (" words)\n        2. Feel natural and conversational\n        " ++
      "3. Reference information from the documents summarized as: ").data ++
    summary ++
    ("\n        4. Have the host ask questions and guide the conversation\n" ++
      "        5. Have the guest provide expertise and insights\n        " ++
      "6. Include back-and-forth exchanges that sound realistic\n\n        " ++
      "Format the dialogue as follows:\n\n        ").data ++
    contentFormatBlock
      ("[".data ++ host_name ++ " or ".data ++ guest_name ++ "]".data)
      ("[".data ++ host_name ++ " or ".data ++ guest_name ++ "]".data) ++
    ("\n\n        Return ONLY the formatted JSON with no additional text " ++
      "or explanation.").data

/-- The Planner's third prompt, by mode. -/
def contentPrompt (outline summary : List Char)
    (host_name guest_name : List Char) (duration_minutes : Nat)
    (monologue : Bool) : List Char :=
  if monologue then
    contentPromptMonologue outline summary host_name duration_minutes
  else
    contentPromptDialogue outline summary host_name guest_name duration_minutes

/-- The first generation reply of the run (`summary`). -/
def summaryOf (llm : List Char → List Char) (pdf_metadata : List PDFMetadata) :
    List Char :=
  llm (summaryPrompt pdf_metadata)

/-- The second generation reply of the run (`outline`). -/
def outlineOf (llm : List Char → List Char) (pdf_metadata : List PDFMetadata)
    (host_name guest_name : List Char) (duration_minutes : Nat)
    (podcast_topic : List Char) (monologue : Bool) : List Char :=
  llm (outlinePrompt (summaryOf llm pdf_metadata) host_name guest_name
    duration_minutes podcast_topic monologue)

/-- The third generation reply of the run (`content_response`). -/
def thirdReply (llm : List Char → List Char) (pdf_metadata : List PDFMetadata)
    (host_name guest_name : List Char) (duration_minutes : Nat)
    (podcast_topic : List Char) (monologue : Bool) : List Char :=
  llm (contentPrompt
    (outlineOf llm pdf_metadata host_name guest_name duration_minutes
      podcast_topic monologue)
    (summaryOf llm pdf_metadata) host_name guest_name duration_minutes
    monologue)

/-- The Planner (`generate_podcast_content` in the source): three chained
generation calls, then extraction and decoding of the third reply.
`jsonParse` is the standard-library JSON decoder (`none` = decode error). -/
def generate_podcast_content (llm : List Char → List Char)
    (jsonParse : List Char → Option PyJson)
    (pdf_metadata : List PDFMetadata) (host_name guest_name : List Char)
    (duration_minutes : Nat) (podcast_topic : List Char) (monologue : Bool) :
    Option Conversation :=
  (extract_json (thirdReply llm pdf_metadata host_name guest_name
      duration_minutes podcast_topic monologue)).bind fun json_content =>
    (jsonParse json_content).bind decodeData

/-- Voice chosen for an extra distinct speaker at enumeration index `i`
(`host_voice if i % 2 == 0 else guest_voice`). -/
def extraVoice (host_voice guest_voice : List Char) (i : Nat) : List Char :=
  if i % 2 = 0 then host_voice else guest_voice

/-- The voice-mapping construction of `generate_audio`, given the
enumeration `speaker_list` of the speaker set (Python `list(set(...))`,
whose order is unspecified; its keys are distinct, so the dict is modelled
as this association list in assignment order). -/
def mkVoiceMapping (speaker_list : List (List Char))
    (host_voice guest_voice : List Char) (monologue : Bool) :
    List (List Char × List Char) :=
  if monologue then
    speaker_list.map fun s => (s, host_voice)
  else
    match speaker_list with
    | [] => []
    | [s0] => [(s0, host_voice)]
    | s0 :: s1 :: rest =>
      (s0, host_voice) :: (s1, guest_voice) ::
        (List.enumFrom 2 rest).map fun p =>
          (p.2, extraVoice host_voice guest_voice p.1)

/-- Python dict lookup `voice_mapping[speaker]` on the association list
(keys are distinct): `none` models the `KeyError`. -/
def dictGet (d : List (List Char × List Char)) (k : List Char) :
    Option (List Char) :=
  match d with
  | [] => none
  | (a, v) :: rest => if a = k then some v else dictGet rest k

/-- One synthesis request as dispatched by `generate_audio`
(`tts.start(text=..., voice_id=..., sample_rate=44100,
english_normalization=True, language_boost="English")`). -/
structure TTSRequest where
  text : List Char
  voice_id : List Char
  sample_rate : Nat
  english_normalization : Bool
  language_boost : List Char
deriving DecidableEq

/-- The dispatch loop of `generate_audio`: one request per dialogue line,
in script order; a failing voice lookup raises (`none`). -/
def buildRequests (voice_mapping : List (List Char × List Char)) :
    List DialogueEntry → Option (List TTSRequest)
  | [] => some []
  | entry :: rest =>
    match dictGet voice_mapping entry.speaker with
    | none => none
    | some voice =>
      match buildRequests voice_mapping rest with
      | none => none
      | some reqs =>
        some (⟨entry.text, voice, 44100, true, "English".data⟩ :: reqs)

/-- The full request list dispatched for a conversation. -/
def audioRequests (conversation : Conversation)
    (voice_mapping : List (List Char × List Char)) :
    Option (List TTSRequest) :=
  buildRequests voice_mapping conversation.lines

/-- The segment file path for sequence index `i`
(`f"/tmp/audio-{i}.mp3"`). -/
def segmentPath (i : Nat) : List Char :=
  "/tmp/audio-".data ++ (Nat.repr i).data ++ ".mp3".data

/-- The retrieval loop of `generate_audio`, carrying the `enumerate`
index: the `i`-th dispatched task is awaited and its downloaded audio
(`wait` of the request) is saved at `segmentPath i`. -/
def savedSegmentsAux (wait : TTSRequest → List Char) :
    Nat → List TTSRequest → List (List Char × List Char)
  | _, [] => []
  | i, t :: rest => (segmentPath i, wait t) :: savedSegmentsAux wait (i + 1) rest

/-- The saved audio segments, in retrieval order: (file path, audio). -/
def savedSegments (wait : TTSRequest → List Char) (audio_tasks : List TTSRequest) :
    List (List Char × List Char) :=
  savedSegmentsAux wait 0 audio_tasks

/-- The single-quote character written around each manifest path. -/
def quoteChar : Char := Char.ofNat 39

/-- One line of the FFmpeg concat manifest (`f"file '{path}'\n"` with the
absolute segment path; the segment paths are already absolute). -/
def fileLine (p : List Char) : List Char :=
  "file ".data ++ [quoteChar] ++ p ++ [quoteChar] ++ "\n".data

/-- The concat manifest written by `combine_audio_files`, listing the
audio files in order. -/
def manifestText (audio_files : List (List Char)) : List Char :=
  (audio_files.map fileLine).flatten

/-- The FFmpeg command line built by `combine_audio_files`
(stream-copy concatenation of the manifest into the output path). -/
def ffmpegCmd (output_path : List Char) : List (List Char) :=
  ["ffmpeg".data, "-y".data, "-f".data, "concat".data, "-safe".data,
    "0".data, "-i".data, "/tmp/file_list.txt".data, "-c".data, "copy".data,
    output_path]

/-- The Synthesizer (`generate_audio` in the source): build the voice
mapping from the enumerated speaker set, dispatch one request per line,
retrieve and save segments in index order, concatenate via FFmpeg, and
return the combined path.  `setList` is Python `list(set(...))` on the
line speakers (enumeration order unspecified); `wait` is the composite
await-and-download of one request's audio. -/
def generate_audio (setList : List (List Char) → List (List Char))
    (wait : TTSRequest → List Char) (conversation : Conversation)
    (host_voice guest_voice : List Char) (monologue : Bool) :
    Option (List Char) :=
  let speaker_list := setList (conversation.lines.map DialogueEntry.speaker)
  let voice_mapping := mkVoiceMapping speaker_list host_voice guest_voice monologue
  (audioRequests conversation voice_mapping).map fun audio_tasks =>
    let all_audio_segments := savedSegments wait audio_tasks
    let _file_list := manifestText (all_audio_segments.map Prod.fst)
    "podcast.mp3".data

/-- The synthesis requests dispatched during a whole run (empty trace is
`none` of a failed run before dispatch). -/
def pipelineRequests (extractText : PdfFile → List Char)
    (llm : List Char → List Char) (jsonParse : List Char → Option PyJson)
    (setList : List (List Char) → List (List Char)) (pdfs : List PdfFile)
    (host_name guest_name host_voice guest_voice : List Char)
    (duration_minutes : Nat) (podcast_topic : List Char) (monologue : Bool) :
    Option (List TTSRequest) :=
  let pdf_metadata := process_pdfs extractText pdfs
  (generate_podcast_content llm jsonParse pdf_metadata host_name guest_name
      duration_minutes podcast_topic monologue).bind fun conversation =>
    audioRequests conversation
      (mkVoiceMapping (setList (conversation.lines.map DialogueEntry.speaker))
        host_voice guest_voice monologue)

/-- The whole pipeline (`pdf_to_podcast` in the source): ingestion, the
Planner, then audio generation; the result is the output path. -/
def pdf_to_podcast (extractText : PdfFile → List Char)
    (llm : List Char → List Char) (jsonParse : List Char → Option PyJson)
    (setList : List (List Char) → List (List Char))
    (wait : TTSRequest → List Char) (pdfs : List PdfFile)
    (host_name guest_name host_voice guest_voice : List Char)
    (duration_minutes : Nat) (podcast_topic : List Char) (monologue : Bool) :
    Option (List Char) :=
  let pdf_metadata := process_pdfs extractText pdfs
  (generate_podcast_content llm jsonParse pdf_metadata host_name guest_name
      duration_minutes podcast_topic monologue).bind fun conversation =>
    generate_audio setList wait conversation host_voice guest_voice monologue

/-! ## Helper lemmas: the separator scan -/

theorem splitOnConsF_fuel_irrel (a : Char) (sep : List Char) :
    ∀ f1 f2 l, l.length ≤ f1 → l.length ≤ f2 →
      splitOnConsF a sep f1 l = splitOnConsF a sep f2 l := by
  intro f1
  induction f1 with
  | zero =>
    intro f2 l h1 _
    have hl : l = [] := List.length_eq_zero.mp (Nat.le_zero.mp h1)
    subst hl
    cases f2 <;> simp [splitOnConsF]
  | succ k ih =>
    intro f2 l h1 h2
    cases l with
    | nil => cases f2 <;> simp [splitOnConsF]
    | cons c rest =>
      cases f2 with
      | zero => simp at h2
      | succ m =>
        simp only [List.length_cons, Nat.succ_le_succ_iff] at h1 h2
        simp only [splitOnConsF]
        by_cases hp : (a :: sep) <+: (c :: rest)
        · simp only [if_pos hp]
          have hd1 : (rest.drop sep.length).length ≤ k :=
            le_trans (by simp [List.length_drop]) h1
          have hd2 : (rest.drop sep.length).length ≤ m :=
            le_trans (by simp [List.length_drop]) h2
          rw [ih m (rest.drop sep.length) hd1 hd2]
        · simp only [if_neg hp]
          rw [ih m rest h1 h2]

theorem splitOnCons_cons (a : Char) (sep : List Char) (c : Char) (rest : List Char) :
    splitOnCons a sep (c :: rest) =
      if (a :: sep) <+: (c :: rest) then
        [] :: splitOnCons a sep (rest.drop sep.length)
      else
        match splitOnCons a sep rest with
        | [] => [[c]]
        | s :: ss => (c :: s) :: ss := by
  show splitOnConsF a sep ((c :: rest).length) (c :: rest) = _
  simp only [List.length_cons, splitOnConsF]
  by_cases hp : (a :: sep) <+: (c :: rest)
  · simp only [if_pos hp]
    rw [splitOnConsF_fuel_irrel a sep rest.length (rest.drop sep.length).length
      (rest.drop sep.length) (by simp [List.length_drop]) le_rfl]
    rfl
  · simp only [if_neg hp]
    rfl

theorem beforeFirst_isPr (sep : List Char) : ∀ l, beforeFirst sep l <+: l := by
  intro l
  induction l with
  | nil => simp [beforeFirst]
  | cons c rest ih =>
    simp only [beforeFirst]
    by_cases hp : sep <+: (c :: rest)
    · simp only [if_pos hp]
      exact List.nil_prefix
    · simp only [if_neg hp]
      exact List.cons_prefix_cons.mpr ⟨rfl, ih⟩

theorem beforeFirst_of_not_infix (sep : List Char) :
    ∀ l, ¬ sep <:+: l → beforeFirst sep l = l := by
  intro l
  induction l with
  | nil => intro _; rfl
  | cons c rest ih =>
    intro h
    have hp : ¬ sep <+: (c :: rest) := fun hc => h (Or.inl hc |> List.infix_cons_iff.mpr)
    have hr : ¬ sep <:+: rest := fun hc => h (Or.inr hc |> List.infix_cons_iff.mpr)
    simp only [beforeFirst, if_neg hp, ih hr]

theorem not_infix_beforeFirst (sep : List Char) (hne : sep ≠ []) :
    ∀ l, ¬ sep <:+: beforeFirst sep l := by
  intro l
  induction l with
  | nil =>
    intro h
    exact hne (List.infix_nil.mp h)
  | cons c rest ih =>
    intro h
    by_cases hp : sep <+: (c :: rest)
    · rw [beforeFirst, if_pos hp] at h
      exact hne (List.infix_nil.mp h)
    · rw [beforeFirst, if_neg hp] at h
      rcases List.infix_cons_iff.mp h with h1 | h1
      · exact hp (h1.trans (List.cons_prefix_cons.mpr ⟨rfl, beforeFirst_isPr sep rest⟩))
      · exact ih h1

theorem splitOnCons_miss (a : Char) (sep : List Char) :
    ∀ l, ¬ (a :: sep) <:+: l → splitOnCons a sep l = [l] := by
  intro l
  induction l with
  | nil => intro _; rfl
  | cons c rest ih =>
    intro h
    have hp : ¬ (a :: sep) <+: (c :: rest) :=
      fun hc => h (List.infix_cons_iff.mpr (Or.inl hc))
    have hr : ¬ (a :: sep) <:+: rest :=
      fun hc => h (List.infix_cons_iff.mpr (Or.inr hc))
    rw [splitOnCons_cons, if_neg hp, ih hr]

theorem splitOnCons_hit (a : Char) (sep : List Char) :
    ∀ l, (a :: sep) <:+: l →
      splitOnCons a sep l =
        beforeFirst (a :: sep) l :: splitOnCons a sep (afterFirst (a :: sep) l) := by
  intro l
  induction l with
  | nil =>
    intro h
    exact absurd (List.infix_nil.mp h) (List.cons_ne_nil a sep)
  | cons c rest ih =>
    intro h
    by_cases hp : (a :: sep) <+: (c :: rest)
    · rw [splitOnCons_cons, if_pos hp, beforeFirst, if_pos hp, afterFirst, if_pos hp]
      simp only [List.length_cons, List.drop_succ_cons]
    · have hr : (a :: sep) <:+: rest :=
        (List.infix_cons_iff.mp h).resolve_left (fun hc => hp hc)
      rw [splitOnCons_cons, if_neg hp, ih hr, beforeFirst, if_neg hp, afterFirst, if_neg hp]

theorem pySplit_head (sep : List Char) (hne : sep ≠ []) (l : List Char) :
    (pySplit sep l)[0]? = some (beforeFirst sep l) := by
  match sep, hne with
  | a :: s, _ =>
    show (splitOnCons a s l)[0]? = _
    by_cases h : (a :: s) <:+: l
    · rw [splitOnCons_hit a s l h]
      exact List.getElem?_cons_zero
    · rw [splitOnCons_miss a s l h, beforeFirst_of_not_infix (a :: s) l h]
      exact List.getElem?_cons_zero

theorem pySplit_second (sep : List Char) (hne : sep ≠ []) (l : List Char)
    (h : sep <:+: l) :
    (pySplit sep l)[1]? = some (beforeFirst sep (afterFirst sep l)) := by
  match sep, hne with
  | a :: s, _ =>
    show (splitOnCons a s l)[1]? = _
    rw [splitOnCons_hit a s l h]
    rw [List.getElem?_cons_succ]
    exact pySplit_head (a :: s) (List.cons_ne_nil a s) (afterFirst (a :: s) l)

/-! ## Helper lemmas: the Parser -/

theorem fence3_infix_of_fenceJson {l : List Char} (h : fenceJson <:+: l) :
    fence3 <:+: l :=
  List.IsInfix.trans (by decide) h

theorem fenceJson_ne_nil : fenceJson ≠ [] := by decide

theorem fence3_ne_nil : fence3 ≠ [] := by decide

theorem extract_json_no_fence {content : List Char} (h : ¬ fence3 <:+: content) :
    extract_json content = some content := by
  have hj : ¬ fenceJson <:+: content := fun hc => h (fence3_infix_of_fenceJson hc)
  rw [extract_json, if_neg hj, if_neg h]

theorem extract_json_json_branch {content : List Char} (h : fenceJson <:+: content) :
    extract_json content =
      some (pyStrip (beforeFirst fence3
        (beforeFirst fenceJson (afterFirst fenceJson content)))) := by
  rw [extract_json, if_pos h, pySplit_second fenceJson fenceJson_ne_nil content h]
  show ((pySplit fence3 (beforeFirst fenceJson (afterFirst fenceJson content)))[0]?).map
      pyStrip = _
  rw [pySplit_head fence3 fence3_ne_nil]
  rfl

theorem extract_json_plain_branch {content : List Char}
    (hj : ¬ fenceJson <:+: content) (h : fence3 <:+: content) :
    extract_json content =
      some (pyStrip (beforeFirst fence3 (afterFirst fence3 content))) := by
  rw [extract_json, if_neg hj, if_pos h, pySplit_second fence3 fence3_ne_nil content h]
  show ((pySplit fence3 (beforeFirst fence3 (afterFirst fence3 content)))[0]?).map
      pyStrip = _
  rw [pySplit_head fence3 fence3_ne_nil,
    beforeFirst_of_not_infix fence3 _ (not_infix_beforeFirst fence3 fence3_ne_nil _)]
  rfl

/-! ## Claim C1: Parser extraction precedence -/

/-- C1 (counterexample): the Parser does not return exactly the content
strictly between the first `json`-labeled fence marker and the next fence
marker — the source applies `strip`, so surrounding whitespace inside the
fenced block is removed. -/
theorem extract_json_claim_cex :
    extract_json ("```json\nA\n```".data) ≠
      some (specExtract ("```json\nA\n```".data)) := by
  decide

/-- C1 (amended): the Parser follows the claimed precedence — the
`json`-labeled fence branch first, the plain fence branch second, the
whole reply verbatim last — but in both fence branches it returns the
between-marker content with leading and trailing whitespace stripped
rather than exactly; in the `json` branch this description assumes the
reply contains a single `json`-labeled fence marker (with a repeated
marker the payload is additionally cut at the second occurrence). -/
theorem extract_json_precedence (content : List Char)
    (huniq : ¬ fenceJson <:+: afterFirst fenceJson content) :
    extract_json content =
      some (if fence3 <:+: content then pyStrip (specExtract content)
            else specExtract content) := by
  by_cases h1 : fenceJson <:+: content
  · have h3 : fence3 <:+: content := fence3_infix_of_fenceJson h1
    rw [extract_json_json_branch h1, if_pos h3, specExtract, if_pos h1,
      beforeFirst_of_not_infix fenceJson _ huniq]
  · by_cases h2 : fence3 <:+: content
    · rw [extract_json_plain_branch h1 h2, if_pos h2, specExtract, if_neg h1, if_pos h2]
    · rw [extract_json_no_fence h2, if_neg h2, specExtract, if_neg h1, if_neg h2]

/-- C1 (witness): a reply with prose around a single `json`-fenced block. -/
theorem extract_json_precedence_witness :
    (¬ fenceJson <:+: afterFirst fenceJson ("see below ```json PAYLOAD ``` bye".data)) ∧
    extract_json ("see below ```json PAYLOAD ``` bye".data) =
      some (if fence3 <:+: ("see below ```json PAYLOAD ``` bye".data)
            then pyStrip (specExtract ("see below ```json PAYLOAD ``` bye".data))
            else specExtract ("see below ```json PAYLOAD ``` bye".data)) :=
  ⟨by decide, extract_json_precedence ("see below ```json PAYLOAD ``` bye".data) (by decide)⟩

/-! ## Claim C10: Parser totality -/

/-- C10: `extract_json` is total — every reply yields a payload (the
`split` index accesses are always in range), and a reply with no fence
marker is returned unchanged. -/
theorem extract_json_total (content : List Char) :
    ∃ r, extract_json content = some r ∧ (¬ fence3 <:+: content → r = content) := by
  by_cases h1 : fenceJson <:+: content
  · refine ⟨_, extract_json_json_branch h1, fun hn => ?_⟩
    exact absurd (fence3_infix_of_fenceJson h1) hn
  · by_cases h2 : fence3 <:+: content
    · exact ⟨_, extract_json_plain_branch h1 h2, fun hn => absurd h2 hn⟩
    · exact ⟨content, extract_json_no_fence h2, fun _ => rfl⟩

/-- C10 (witness): instantiations at a fence-free reply and at a reply
ending exactly at an opening fence marker (empty extracted payload). -/
theorem extract_json_total_witness :
    (∃ r, extract_json ("plain reply".data) = some r ∧
      (¬ fence3 <:+: ("plain reply".data) → r = "plain reply".data)) ∧
    extract_json ("ends at fence ```json".data) = some [] :=
  ⟨extract_json_total ("plain reply".data), by decide⟩

/-! ## Claim C2: Planner summarization input and truncation -/

theorem allPdfText_foldl (pdf_metadata : List PDFMetadata) :
    ∀ acc, pdf_metadata.foldl (fun acc pdf => acc ++ docSection pdf) acc =
      acc ++ (pdf_metadata.map docSection).flatten := by
  induction pdf_metadata with
  | nil => intro acc; simp
  | cons p rest ih =>
    intro acc
    simp only [List.foldl_cons, List.map_cons, List.flatten_cons, ih, List.append_assoc]

/-- C2: the Planner's summarization input concatenates, per document, its
name and at most the first 5000 characters of its extracted text; when the
concatenated text exceeds 24000 characters the content placed in the
prompt is exactly its first 24000 characters plus the truncation marker,
and otherwise it is the concatenated text itself (never more than 24000
characters of content). -/
theorem planner_truncation (pdf_metadata : List PDFMetadata) :
    allPdfText pdf_metadata = (pdf_metadata.map docSection).flatten
    ∧ (∀ pdf ∈ pdf_metadata, (pdf.markdown.take 5000).length ≤ 5000)
    ∧ (24000 < (allPdfText pdf_metadata).length →
        truncatedPdfText pdf_metadata =
          (allPdfText pdf_metadata).take 24000 ++ truncMarker
        ∧ ((allPdfText pdf_metadata).take 24000).length = 24000)
    ∧ ((allPdfText pdf_metadata).length ≤ 24000 →
        truncatedPdfText pdf_metadata = allPdfText pdf_metadata)
    ∧ summaryPrompt pdf_metadata =
        summaryHeader ++ truncatedPdfText pdf_metadata ++ summaryFooter := by
  refine ⟨by simpa using allPdfText_foldl pdf_metadata [], fun pdf _ => ?_, ?_, ?_, rfl⟩
  · simp [List.length_take]
  · intro h
    constructor
    · simp only [truncatedPdfText]
      rw [if_pos h]
    · rw [List.length_take]
      omega
  · intro h
    simp only [truncatedPdfText]
    rw [if_neg (by omega : ¬ 24000 < (allPdfText pdf_metadata).length)]

/-- C2 (witness): one document whose section text is short (no
truncation), instantiating the theorem. -/
theorem planner_truncation_witness :
    allPdfText [⟨"a.pdf".data, "body".data, "main".data⟩] =
      ([(⟨"a.pdf".data, "body".data, "main".data⟩ : PDFMetadata)].map docSection).flatten
    ∧ (∀ pdf ∈ [(⟨"a.pdf".data, "body".data, "main".data⟩ : PDFMetadata)],
        (pdf.markdown.take 5000).length ≤ 5000)
    ∧ (24000 < (allPdfText [⟨"a.pdf".data, "body".data, "main".data⟩]).length →
        truncatedPdfText [⟨"a.pdf".data, "body".data, "main".data⟩] =
          (allPdfText [⟨"a.pdf".data, "body".data, "main".data⟩]).take 24000 ++ truncMarker
        ∧ ((allPdfText [⟨"a.pdf".data, "body".data, "main".data⟩]).take 24000).length = 24000)
    ∧ ((allPdfText [⟨"a.pdf".data, "body".data, "main".data⟩]).length ≤ 24000 →
        truncatedPdfText [⟨"a.pdf".data, "body".data, "main".data⟩] =
          allPdfText [⟨"a.pdf".data, "body".data, "main".data⟩])
    ∧ summaryPrompt [⟨"a.pdf".data, "body".data, "main".data⟩] =
        summaryHeader ++ truncatedPdfText [⟨"a.pdf".data, "body".data, "main".data⟩] ++
          summaryFooter :=
  planner_truncation [⟨"a.pdf".data, "body".data, "main".data⟩]

/-! ## Claim C3: Ingestor order and roles -/

theorem processPdfsAux_length (extractText : PdfFile → List Char) :
    ∀ (pdfs : List PdfFile) (j : Nat),
      (processPdfsAux extractText j pdfs).length = pdfs.length := by
  intro pdfs
  induction pdfs with
  | nil => intro j; rfl
  | cons p rest ih => intro j; simp [processPdfsAux, ih]

theorem processPdfsAux_getElem (extractText : PdfFile → List Char) :
    ∀ (pdfs : List PdfFile) (j i : Nat) (p : PdfFile), pdfs[i]? = some p →
      (processPdfsAux extractText j pdfs)[i]? =
        some ⟨p.name, extractText p,
          if j + i = 0 then "main".data else "context".data⟩ := by
  intro pdfs
  induction pdfs with
  | nil => intro j i p h; simp at h
  | cons q rest ih =>
    intro j i p h
    cases i with
    | zero =>
      rw [List.getElem?_cons_zero] at h
      cases h
      simp [processPdfsAux]
    | succ k =>
      rw [List.getElem?_cons_succ] at h
      have := ih (j + 1) k p h
      rw [processPdfsAux, List.getElem?_cons_succ, this]
      have harith : j + 1 + k = j + (k + 1) := by omega
      rw [harith]

/-- C3: the Ingestor produces exactly one `PDFMetadata` per input, in
input order, with entry 0 tagged `"main"` and every other entry tagged
`"context"`. -/
theorem process_pdfs_order (extractText : PdfFile → List Char) (pdfs : List PdfFile) :
    (process_pdfs extractText pdfs).length = pdfs.length
    ∧ ∀ (i : Nat) (p : PdfFile), pdfs[i]? = some p →
        (process_pdfs extractText pdfs)[i]? =
          some ⟨p.name, extractText p,
            if i = 0 then "main".data else "context".data⟩ := by
  refine ⟨processPdfsAux_length extractText pdfs 0, fun i p h => ?_⟩
  have := processPdfsAux_getElem extractText pdfs 0 i p h
  simpa using this

/-- C3 (witness): two documents; the second entry is tagged `"context"`
and keeps its input position. -/
theorem process_pdfs_order_witness :
    ([⟨"a.pdf".data⟩, ⟨"b.pdf".data⟩] : List PdfFile)[1]? = some ⟨"b.pdf".data⟩
    ∧ (process_pdfs (fun _ => "text".data) [⟨"a.pdf".data⟩, ⟨"b.pdf".data⟩])[1]? =
        some ⟨"b.pdf".data, "text".data, "context".data⟩ := by
  refine ⟨by decide, ?_⟩
  have := (process_pdfs_order (fun _ => "text".data)
    [⟨"a.pdf".data⟩, ⟨"b.pdf".data⟩]).2 1 ⟨"b.pdf".data⟩ (by decide)
  simpa using this

/-! ## Helper lemmas: the Voice Mapper -/

theorem mkVoiceMapping_keys (speaker_list : List (List Char))
    (host_voice guest_voice : List Char) (monologue : Bool) :
    (mkVoiceMapping speaker_list host_voice guest_voice monologue).map Prod.fst =
      speaker_list := by
  cases monologue with
  | true =>
    show (speaker_list.map fun s => (s, host_voice)).map Prod.fst = speaker_list
    rw [List.map_map]
    exact List.map_id speaker_list
  | false =>
    match speaker_list with
    | [] => rfl
    | [s0] => rfl
    | s0 :: s1 :: rest =>
      show ((s0, host_voice) :: (s1, guest_voice) ::
        (List.enumFrom 2 rest).map fun p =>
          (p.2, extraVoice host_voice guest_voice p.1)).map Prod.fst = _
      rw [List.map_cons, List.map_cons, List.map_map]
      exact congrArg (fun t => s0 :: s1 :: t) (List.enumFrom_map_snd 2 rest)

theorem dictGet_map_const (v : List Char) :
    ∀ (l : List (List Char)) (s : List Char), s ∈ l →
      dictGet (l.map fun s => (s, v)) s = some v := by
  intro l
  induction l with
  | nil => intro s h; simp at h
  | cons a rest ih =>
    intro s h
    rw [List.map_cons, dictGet]
    by_cases ha : a = s
    · rw [if_pos ha]
    · rw [if_neg ha]
      exact ih s (by rcases List.mem_cons.mp h with h1 | h1
                     · exact absurd h1.symm ha
                     · exact h1)

theorem dictGet_isSome_of_mem_keys :
    ∀ (d : List (List Char × List Char)) (s : List Char), s ∈ d.map Prod.fst →
      ∃ v, dictGet d s = some v := by
  intro d
  induction d with
  | nil => intro s h; simp at h
  | cons kv rest ih =>
    intro s h
    obtain ⟨a, v⟩ := kv
    rw [List.map_cons] at h
    rcases List.mem_cons.mp h with h1 | h1
    · exact ⟨v, by rw [dictGet, if_pos h1.symm]⟩
    · by_cases ha : a = s
      · exact ⟨v, by rw [dictGet, if_pos ha]⟩
      · obtain ⟨w, hw⟩ := ih s h1
        exact ⟨w, by rw [dictGet, if_neg ha, hw]⟩

theorem dictGet_of_getElem :
    ∀ (d : List (List Char × List Char)) (i : Nat) (s v : List Char),
      d[i]? = some (s, v) → (d.map Prod.fst).Nodup → dictGet d s = some v := by
  intro d
  induction d with
  | nil => intro i s v h _; simp at h
  | cons kv rest ih =>
    intro i s v h hnd
    obtain ⟨a, w⟩ := kv
    rw [List.map_cons, List.nodup_cons] at hnd
    cases i with
    | zero =>
      rw [List.getElem?_cons_zero] at h
      cases h
      rw [dictGet, if_pos rfl]
    | succ k =>
      rw [List.getElem?_cons_succ] at h
      have hmem : s ∈ rest.map Prod.fst := by
        have hm := List.getElem?_mem h
        exact List.mem_map_of_mem Prod.fst hm
      have hne : a ≠ s := fun he => hnd.1 (he ▸ hmem)
      rw [dictGet, if_neg hne]
      exact ih k s v h hnd.2

theorem buildRequests_total (voice_mapping : List (List Char × List Char)) :
    ∀ entries : List DialogueEntry,
      (∀ e ∈ entries, ∃ v, dictGet voice_mapping e.speaker = some v) →
      ∃ reqs, buildRequests voice_mapping entries = some reqs := by
  intro entries
  induction entries with
  | nil => intro _; exact ⟨[], rfl⟩
  | cons e rest ih =>
    intro h
    obtain ⟨v, hv⟩ := h e (List.mem_cons_self e rest)
    obtain ⟨reqs, hreqs⟩ := ih fun x hx => h x (List.mem_cons_of_mem e hx)
    refine ⟨⟨e.text, v, 44100, true, "English".data⟩ :: reqs, ?_⟩
    rw [buildRequests, hv, hreqs]

theorem enumFrom_getElem :
    ∀ (l : List (List Char)) (j i : Nat),
      (List.enumFrom j l)[i]? = l[i]?.map fun s => (j + i, s) := by
  intro l
  induction l with
  | nil => intro j i; simp
  | cons c rest ih =>
    intro j i
    have he : List.enumFrom j (c :: rest) = (j, c) :: List.enumFrom (j + 1) rest := rfl
    cases i with
    | zero => rw [he, List.getElem?_cons_zero, List.getElem?_cons_zero]; rfl
    | succ k =>
      rw [he, List.getElem?_cons_succ, List.getElem?_cons_succ, ih (j + 1) k]
      have harith : j + 1 + k = j + (k + 1) := by omega
      rw [harith]

theorem two_elem_list (l : List (List Char)) (x y : List Char) (hxy : x ≠ y)
    (hnd : l.Nodup) (hmem : ∀ s, s ∈ l ↔ (s = x ∨ s = y)) :
    l = [x, y] ∨ l = [y, x] := by
  rcases l with _ | ⟨a, _ | ⟨b, rest⟩⟩
  · exact absurd ((hmem x).mpr (Or.inl rfl)) (List.not_mem_nil x)
  · have hx : x ∈ [a] := (hmem x).mpr (Or.inl rfl)
    have hy : y ∈ [a] := (hmem y).mpr (Or.inr rfl)
    rw [List.mem_singleton] at hx hy
    exact absurd (hx.trans hy.symm) hxy
  · rw [List.nodup_cons] at hnd
    obtain ⟨hna, hnd2⟩ := hnd
    rw [List.nodup_cons] at hnd2
    obtain ⟨hnb, _⟩ := hnd2
    have hab : a ≠ b := fun he => hna (he ▸ List.mem_cons_self b rest)
    have ha := (hmem a).mp (List.mem_cons_self a (b :: rest))
    have hb := (hmem b).mp (List.mem_cons_of_mem a (List.mem_cons_self b rest))
    have hanr : a ∉ rest := fun hc => hna (List.mem_cons_of_mem b hc)
    have hrest : rest = [] := by
      cases hr : rest with
      | nil => rfl
      | cons c rest2 =>
        subst hr
        have hcmem : c ∈ a :: b :: c :: rest2 :=
          List.mem_cons_of_mem a (List.mem_cons_of_mem b (List.mem_cons_self c rest2))
        have hc := (hmem c).mp hcmem
        have hac : a ≠ c := fun he => hanr (he ▸ List.mem_cons_self c rest2)
        have hbc : b ≠ c := fun he => hnb (he ▸ List.mem_cons_self c rest2)
        rcases ha with ha | ha <;> rcases hb with hb | hb
        · exact absurd (ha.trans hb.symm) hab
        · rcases hc with hc | hc
          · exact absurd (ha.trans hc.symm) hac
          · exact absurd (hb.trans hc.symm) hbc
        · rcases hc with hc | hc
          · exact absurd (hb.trans hc.symm) hbc
          · exact absurd (ha.trans hc.symm) hac
        · exact absurd (ha.trans hb.symm) hab
    subst hrest
    rcases ha with ha | ha <;> rcases hb with hb | hb
    · exact absurd (ha.trans hb.symm) hab
    · exact Or.inl (by rw [ha, hb])
    · exact Or.inr (by rw [ha, hb])
    · exact absurd (ha.trans hb.symm) hab

/-! ## Claim C6: dialogue mode with speakers Adam and Bella -/

/-- C6: for a Script whose distinct line speakers are exactly `"Adam"`
and `"Bella"`, in dialogue mode the voice mapping has exactly those two
keys, one mapped to the host voice and the other to the guest voice
(which of the two gets which depends on the unspecified set order). -/
theorem dialogue_two_speakers (conversation : Conversation)
    (speaker_list : List (List Char)) (host_voice guest_voice : List Char)
    (hnd : speaker_list.Nodup)
    (hmem : ∀ s, s ∈ speaker_list ↔ s ∈ conversation.lines.map DialogueEntry.speaker)
    (htwo : ∀ s, s ∈ conversation.lines.map DialogueEntry.speaker ↔
      (s = "Adam".data ∨ s = "Bella".data)) :
    mkVoiceMapping speaker_list host_voice guest_voice false =
        [("Adam".data, host_voice), ("Bella".data, guest_voice)]
    ∨ mkVoiceMapping speaker_list host_voice guest_voice false =
        [("Bella".data, host_voice), ("Adam".data, guest_voice)] := by
  have hmem2 : ∀ s, s ∈ speaker_list ↔ (s = "Adam".data ∨ s = "Bella".data) :=
    fun s => (hmem s).trans (htwo s)
  rcases two_elem_list speaker_list ("Adam".data) ("Bella".data) (by decide) hnd hmem2
    with h | h
  · subst h
    exact Or.inl rfl
  · subst h
    exact Or.inr rfl

/-- C6 (witness): a two-line Script spoken by Adam and Bella, with the
set enumeration in source order. -/
theorem dialogue_two_speakers_witness :
    (["Adam".data, "Bella".data] : List (List Char)).Nodup
    ∧ (mkVoiceMapping ["Adam".data, "Bella".data] ("hostV".data) ("guestV".data) false =
        [("Adam".data, "hostV".data), ("Bella".data, "guestV".data)]
      ∨ mkVoiceMapping ["Adam".data, "Bella".data] ("hostV".data) ("guestV".data) false =
        [("Bella".data, "hostV".data), ("Adam".data, "guestV".data)]) :=
  ⟨by decide,
    dialogue_two_speakers
      ⟨"t".data, "s".data, [⟨"hi".data, "Adam".data⟩, ⟨"yo".data, "Bella".data⟩]⟩
      ["Adam".data, "Bella".data] ("hostV".data) ("guestV".data)
      (by decide) (fun s => Iff.rfl) (fun s => by simp)⟩

/-! ## Claim C7: monologue mode maps every speaker to the host voice -/

/-- C7: in monologue mode every distinct speaker label appearing in the
Script's lines is mapped to the host voice, whatever the guest voice is. -/
theorem monologue_host_voice (conversation : Conversation)
    (speaker_list : List (List Char)) (host_voice guest_voice : List Char)
    (hmem : ∀ s, s ∈ speaker_list ↔ s ∈ conversation.lines.map DialogueEntry.speaker) :
    ∀ e ∈ conversation.lines,
      dictGet (mkVoiceMapping speaker_list host_voice guest_voice true) e.speaker =
        some host_voice := by
  intro e he
  have hs : e.speaker ∈ speaker_list :=
    (hmem e.speaker).mpr (List.mem_map_of_mem DialogueEntry.speaker he)
  show dictGet (speaker_list.map fun s => (s, host_voice)) e.speaker = some host_voice
  exact dictGet_map_const host_voice speaker_list e.speaker hs

/-- C7 (witness): a single-speaker Script; the speaker gets the host
voice even though a distinct guest voice is configured. -/
theorem monologue_host_voice_witness :
    (⟨"solo".data, "Adam".data⟩ : DialogueEntry) ∈
      (⟨"t".data, "s".data, [⟨"solo".data, "Adam".data⟩]⟩ : Conversation).lines
    ∧ dictGet (mkVoiceMapping ["Adam".data] ("hostV".data) ("guestV".data) true)
        ("Adam".data) = some ("hostV".data) :=
  ⟨List.mem_cons_self _ _,
    monologue_host_voice
      ⟨"t".data, "s".data, [⟨"solo".data, "Adam".data⟩]⟩
      ["Adam".data] ("hostV".data) ("guestV".data) (fun _ => Iff.rfl)
      ⟨"solo".data, "Adam".data⟩ (List.mem_cons_self _ _)⟩

/-! ## Claim C8: extra distinct speakers alternate host/guest voices -/

/-- C8: in dialogue mode, a distinct speaker at position `i ≥ 2` of the
enumerated speaker list is mapped to the host voice when `i` is even and
to the guest voice when `i` is odd (both positionally in the mapping and
under dictionary lookup, the speaker list being duplicate-free). -/
theorem dialogue_extra_speakers (speaker_list : List (List Char))
    (host_voice guest_voice : List Char) (hnd : speaker_list.Nodup)
    (i : Nat) (hi : 2 ≤ i) (s : List Char) (hs : speaker_list[i]? = some s) :
    (mkVoiceMapping speaker_list host_voice guest_voice false)[i]? =
      some (s, if i % 2 = 0 then host_voice else guest_voice)
    ∧ dictGet (mkVoiceMapping speaker_list host_voice guest_voice false) s =
      some (if i % 2 = 0 then host_voice else guest_voice) := by
  have hpos : (mkVoiceMapping speaker_list host_voice guest_voice false)[i]? =
      some (s, if i % 2 = 0 then host_voice else guest_voice) := by
    obtain ⟨k, rfl⟩ : ∃ k, i = k + 2 := ⟨i - 2, by omega⟩
    rcases speaker_list with _ | ⟨s0, _ | ⟨s1, rest⟩⟩
    · simp at hs
    · rw [List.getElem?_cons_succ] at hs
      simp at hs
    · rw [List.getElem?_cons_succ, List.getElem?_cons_succ] at hs
      show ((s0, host_voice) :: (s1, guest_voice) ::
        (List.enumFrom 2 rest).map fun p =>
          (p.2, extraVoice host_voice guest_voice p.1))[k + 2]? = _
      rw [List.getElem?_cons_succ, List.getElem?_cons_succ, List.getElem?_map,
        enumFrom_getElem rest 2 k, hs]
      show some (s, extraVoice host_voice guest_voice (2 + k)) = _
      rw [extraVoice]
      have hmod : (2 + k) % 2 = (k + 2) % 2 := by omega
      rw [hmod]
  refine ⟨hpos, dictGet_of_getElem _ i s _ hpos ?_⟩
  rw [mkVoiceMapping_keys]
  exact hnd

/-- C8 (witness): four distinct speakers; position 2 (even) gets the host
voice under lookup. -/
theorem dialogue_extra_speakers_witness :
    (["A".data, "B".data, "C".data, "D".data] : List (List Char)).Nodup
    ∧ (["A".data, "B".data, "C".data, "D".data] : List (List Char))[2]? = some ("C".data)
    ∧ dictGet (mkVoiceMapping ["A".data, "B".data, "C".data, "D".data]
        ("hostV".data) ("guestV".data) false) ("C".data) = some ("hostV".data) := by
  refine ⟨by decide, by decide, ?_⟩
  have h := (dialogue_extra_speakers ["A".data, "B".data, "C".data, "D".data]
    ("hostV".data) ("guestV".data) (by decide) 2 (by decide) ("C".data) (by decide)).2
  simpa using h

/-! ## Claim C9: the voice mapping covers every line's speaker -/

/-- C9: in both modes the mapping's key list is exactly the enumerated
distinct speakers of the Script's lines, so the per-line voice lookup at
dispatch time succeeds for every line and the whole dispatch loop
succeeds. -/
theorem voice_mapping_covers (conversation : Conversation)
    (speaker_list : List (List Char)) (host_voice guest_voice : List Char)
    (monologue : Bool)
    (hmem : ∀ s, s ∈ speaker_list ↔ s ∈ conversation.lines.map DialogueEntry.speaker) :
    (∀ s, s ∈ (mkVoiceMapping speaker_list host_voice guest_voice monologue).map
        Prod.fst ↔ s ∈ conversation.lines.map DialogueEntry.speaker)
    ∧ (∀ e ∈ conversation.lines,
        ∃ v, dictGet (mkVoiceMapping speaker_list host_voice guest_voice monologue)
          e.speaker = some v)
    ∧ ∃ reqs, audioRequests conversation
        (mkVoiceMapping speaker_list host_voice guest_voice monologue) = some reqs := by
  have hkeys := mkVoiceMapping_keys speaker_list host_voice guest_voice monologue
  have hcover : ∀ e ∈ conversation.lines,
      ∃ v, dictGet (mkVoiceMapping speaker_list host_voice guest_voice monologue)
        e.speaker = some v := by
    intro e he
    apply dictGet_isSome_of_mem_keys
    rw [hkeys]
    exact (hmem e.speaker).mpr (List.mem_map_of_mem DialogueEntry.speaker he)
  refine ⟨fun s => ?_, hcover, ?_⟩
  · rw [hkeys]
    exact hmem s
  · exact buildRequests_total _ conversation.lines hcover

/-- C9 (witness): a two-speaker dialogue Script; the dispatch loop
succeeds on every line. -/
theorem voice_mapping_covers_witness :
    ∃ reqs, audioRequests
      ⟨"t".data, "s".data, [⟨"hi".data, "A".data⟩, ⟨"yo".data, "B".data⟩]⟩
      (mkVoiceMapping ["A".data, "B".data] ("hostV".data) ("guestV".data) false) =
        some reqs :=
  (voice_mapping_covers
    ⟨"t".data, "s".data, [⟨"hi".data, "A".data⟩, ⟨"yo".data, "B".data⟩]⟩
    ["A".data, "B".data] ("hostV".data) ("guestV".data) false
    (fun _ => Iff.rfl)).2.2

/-! ## Helper lemmas: the Synthesizer and Assembler -/

theorem buildRequests_length (voice_mapping : List (List Char × List Char)) :
    ∀ (entries : List DialogueEntry) (reqs : List TTSRequest),
      buildRequests voice_mapping entries = some reqs →
      reqs.length = entries.length := by
  intro entries
  induction entries with
  | nil =>
    intro reqs h
    rw [buildRequests] at h
    cases h
    rfl
  | cons e rest ih =>
    intro reqs h
    rw [buildRequests] at h
    cases hv : dictGet voice_mapping e.speaker with
    | none => rw [hv] at h; exact absurd h (by simp)
    | some v =>
      rw [hv] at h
      cases hr : buildRequests voice_mapping rest with
      | none => rw [hr] at h; exact absurd h (by simp)
      | some rs =>
        rw [hr] at h
        cases h
        simp [ih rs hr]

theorem buildRequests_getElem (voice_mapping : List (List Char × List Char)) :
    ∀ (entries : List DialogueEntry) (reqs : List TTSRequest),
      buildRequests voice_mapping entries = some reqs →
      ∀ (i : Nat) (e : DialogueEntry), entries[i]? = some e →
        ∃ v, dictGet voice_mapping e.speaker = some v ∧
          reqs[i]? = some ⟨e.text, v, 44100, true, "English".data⟩ := by
  intro entries
  induction entries with
  | nil => intro reqs _ i e he; simp at he
  | cons x rest ih =>
    intro reqs h i e he
    rw [buildRequests] at h
    cases hv : dictGet voice_mapping x.speaker with
    | none => rw [hv] at h; exact absurd h (by simp)
    | some v =>
      rw [hv] at h
      cases hr : buildRequests voice_mapping rest with
      | none => rw [hr] at h; exact absurd h (by simp)
      | some rs =>
        rw [hr] at h
        cases h
        cases i with
        | zero =>
          rw [List.getElem?_cons_zero] at he
          cases he
          exact ⟨v, hv, List.getElem?_cons_zero⟩
        | succ k =>
          rw [List.getElem?_cons_succ] at he
          obtain ⟨w, hw, hk⟩ := ih rs hr k e he
          exact ⟨w, hw, by rw [List.getElem?_cons_succ]; exact hk⟩

theorem savedSegmentsAux_getElem (wait : TTSRequest → List Char) :
    ∀ (tasks : List TTSRequest) (j i : Nat) (t : TTSRequest), tasks[i]? = some t →
      (savedSegmentsAux wait j tasks)[i]? = some (segmentPath (j + i), wait t) := by
  intro tasks
  induction tasks with
  | nil => intro j i t h; simp at h
  | cons x rest ih =>
    intro j i t h
    cases i with
    | zero =>
      rw [List.getElem?_cons_zero] at h
      cases h
      rw [savedSegmentsAux, List.getElem?_cons_zero]
      rfl
    | succ k =>
      rw [List.getElem?_cons_succ] at h
      rw [savedSegmentsAux, List.getElem?_cons_succ, ih (j + 1) k t h]
      have harith : j + 1 + k = j + (k + 1) := by omega
      rw [harith]

theorem savedSegmentsAux_map_fst (wait : TTSRequest → List Char) :
    ∀ (tasks : List TTSRequest) (j : Nat),
      (savedSegmentsAux wait j tasks).map Prod.fst =
        (List.range' j tasks.length).map segmentPath := by
  intro tasks
  induction tasks with
  | nil => intro j; rfl
  | cons x rest ih =>
    intro j
    rw [savedSegmentsAux, List.map_cons, List.length_cons, List.range'_succ j rest.length 1,
      List.map_cons, ih (j + 1)]

/-! ## Claim C4: segment order matches script line order -/

/-- C4: one synthesis request is dispatched per line in script order
(the i-th request carries the i-th line's text and its speaker's voice);
the i-th request's result is saved to the segment file of sequence index
i; and the concatenation manifest lists the segment files' paths in that
same index order. -/
theorem audio_order (conversation : Conversation)
    (voice_mapping : List (List Char × List Char)) (wait : TTSRequest → List Char)
    (reqs : List TTSRequest)
    (h : audioRequests conversation voice_mapping = some reqs) :
    reqs.length = conversation.lines.length
    ∧ (∀ (i : Nat) (e : DialogueEntry), conversation.lines[i]? = some e →
        ∃ v, dictGet voice_mapping e.speaker = some v ∧
          reqs[i]? = some ⟨e.text, v, 44100, true, "English".data⟩)
    ∧ (∀ (i : Nat) (t : TTSRequest), reqs[i]? = some t →
        (savedSegments wait reqs)[i]? = some (segmentPath i, wait t))
    ∧ manifestText ((savedSegments wait reqs).map Prod.fst) =
        ((List.range reqs.length).map fun i => fileLine (segmentPath i)).flatten := by
  refine ⟨buildRequests_length voice_mapping conversation.lines reqs h,
    buildRequests_getElem voice_mapping conversation.lines reqs h,
    fun i t ht => ?_, ?_⟩
  · have hseg := savedSegmentsAux_getElem wait reqs 0 i t ht
    simpa using hseg
  · have hm : (savedSegments wait reqs).map Prod.fst =
        (List.range reqs.length).map segmentPath := by
      rw [List.range_eq_range']
      exact savedSegmentsAux_map_fst wait reqs 0
    rw [hm, manifestText, List.map_map]
    rfl

/-- C4 (witness): a three-line Script with alternating speakers; the
dispatched requests follow line order and the manifest lists the three
segment paths in index order. -/
theorem audio_order_witness :
    audioRequests
      ⟨"t".data, "s".data,
        [⟨"l0".data, "A".data⟩, ⟨"l1".data, "B".data⟩, ⟨"l2".data, "A".data⟩]⟩
      [("A".data, "hostV".data), ("B".data, "guestV".data)] =
        some [⟨"l0".data, "hostV".data, 44100, true, "English".data⟩,
              ⟨"l1".data, "guestV".data, 44100, true, "English".data⟩,
              ⟨"l2".data, "hostV".data, 44100, true, "English".data⟩]
    ∧ manifestText ((savedSegments (fun _ => "audio".data)
        [⟨"l0".data, "hostV".data, 44100, true, "English".data⟩,
         ⟨"l1".data, "guestV".data, 44100, true, "English".data⟩,
         ⟨"l2".data, "hostV".data, 44100, true, "English".data⟩]).map Prod.fst) =
      ((List.range 3).map fun i => fileLine (segmentPath i)).flatten :=
  ⟨by decide,
    (audio_order
      ⟨"t".data, "s".data,
        [⟨"l0".data, "A".data⟩, ⟨"l1".data, "B".data⟩, ⟨"l2".data, "A".data⟩]⟩
      [("A".data, "hostV".data), ("B".data, "guestV".data)]
      (fun _ => "audio".data)
      [⟨"l0".data, "hostV".data, 44100, true, "English".data⟩,
       ⟨"l1".data, "guestV".data, 44100, true, "English".data⟩,
       ⟨"l2".data, "hostV".data, 44100, true, "English".data⟩]
      (by decide)).2.2.2⟩

/-! ## Claim C5: decode failure aborts before any synthesis dispatch -/

theorem decodeData_none_of_missing (data : PyJson)
    (h : pyGetItem data ("title".data) = none ∨ pyGetItem data ("summary".data) = none
      ∨ pyGetItem data ("lines".data) = none) :
    decodeData data = none := by
  rcases h with h | h | h
  · rw [decodeData]
    split <;> try rfl
    split <;> try rfl
    rw [h]
  · rw [decodeData]
    split <;> try rfl
    split <;> try rfl
    split <;> try rfl
    rw [h]
  · rw [decodeData, h]

/-- C5: when the third generation reply contains no fence marker and
either fails JSON decoding or decodes to an object missing one of the
required keys, the Planner fails and the whole run dispatches no
synthesis request and produces no output. -/
theorem abort_before_synthesis (extractText : PdfFile → List Char)
    (llm : List Char → List Char) (jsonParse : List Char → Option PyJson)
    (setList : List (List Char) → List (List Char))
    (wait : TTSRequest → List Char) (pdfs : List PdfFile)
    (host_name guest_name host_voice guest_voice : List Char)
    (duration_minutes : Nat) (podcast_topic : List Char) (monologue : Bool)
    (hnofence : ¬ fence3 <:+: thirdReply llm (process_pdfs extractText pdfs)
      host_name guest_name duration_minutes podcast_topic monologue)
    (hbad : jsonParse (thirdReply llm (process_pdfs extractText pdfs)
        host_name guest_name duration_minutes podcast_topic monologue) = none
      ∨ ∃ data, jsonParse (thirdReply llm (process_pdfs extractText pdfs)
          host_name guest_name duration_minutes podcast_topic monologue) = some data
        ∧ (pyGetItem data ("title".data) = none
          ∨ pyGetItem data ("summary".data) = none
          ∨ pyGetItem data ("lines".data) = none)) :
    generate_podcast_content llm jsonParse (process_pdfs extractText pdfs)
      host_name guest_name duration_minutes podcast_topic monologue = none
    ∧ pipelineRequests extractText llm jsonParse setList pdfs host_name guest_name
        host_voice guest_voice duration_minutes podcast_topic monologue = none
    ∧ pdf_to_podcast extractText llm jsonParse setList wait pdfs host_name guest_name
        host_voice guest_voice duration_minutes podcast_topic monologue = none := by
  have hext : extract_json (thirdReply llm (process_pdfs extractText pdfs)
      host_name guest_name duration_minutes podcast_topic monologue) =
        some (thirdReply llm (process_pdfs extractText pdfs)
          host_name guest_name duration_minutes podcast_topic monologue) :=
    extract_json_no_fence hnofence
  have hgen : generate_podcast_content llm jsonParse (process_pdfs extractText pdfs)
      host_name guest_name duration_minutes podcast_topic monologue = none := by
    rw [generate_podcast_content, hext]
    show (jsonParse (thirdReply llm (process_pdfs extractText pdfs)
      host_name guest_name duration_minutes podcast_topic monologue)).bind
        decodeData = none
    rcases hbad with hb | ⟨data, hd, hmiss⟩
    · rw [hb]
      rfl
    · rw [hd]
      show decodeData data = none
      exact decodeData_none_of_missing data hmiss
  refine ⟨hgen, ?_, ?_⟩
  · show (generate_podcast_content llm jsonParse (process_pdfs extractText pdfs)
      host_name guest_name duration_minutes podcast_topic monologue).bind _ = none
    rw [hgen]
    rfl
  · show (generate_podcast_content llm jsonParse (process_pdfs extractText pdfs)
      host_name guest_name duration_minutes podcast_topic monologue).bind _ = none
    rw [hgen]
    rfl

/-- C5 (witness): a constant plain-text third reply with a decoder that
rejects it; the run yields no conversation, no synthesis request and no
output artifact. -/
theorem abort_before_synthesis_witness :
    (¬ fence3 <:+: thirdReply (fun _ => "this is not json".data)
      (process_pdfs (fun _ => "doc".data) []) ("Adam".data) ("Bella".data) 5 [] false)
    ∧ pipelineRequests (fun _ => "doc".data) (fun _ => "this is not json".data)
        (fun _ => none) (fun l => l) [] ("Adam".data) ("Bella".data)
        ("Patient_Man".data) ("Wise_Woman".data) 5 [] false = none :=
  ⟨by decide,
    (abort_before_synthesis (fun _ => "doc".data) (fun _ => "this is not json".data)
      (fun _ => none) (fun l => l) (fun _ => "audio".data) [] ("Adam".data)
      ("Bella".data) ("Patient_Man".data) ("Wise_Woman".data) 5 [] false
      (by decide) (Or.inl rfl)).2.1⟩
